import Mathlib

/-!
Verification of the battery-estimator core (curve interpolation, I16F16
fixed-point compensation, estimator composition) against its specification.

Modelling conventions:
* The `fixed` crate's `I16F16` type is embedded as its raw bit pattern, an
  integer in `[-2^31, 2^31)`.  Arithmetic follows the crate's release-mode
  semantics: results wrap on two's-complement 32-bit overflow (`wrap32`);
  multiplication computes the full product in 64-bit and shifts the
  fractional bits out (an arithmetic shift, i.e. flooring); division widens
  the dividend by 16 bits and uses the 64-bit quotient.
* `f32` values are embedded as `F32`: either a finite rational, NaN, or a
  signed infinity.  The float wrappers only test finiteness, convert to
  fixed point (`Fixed::from_num`, which rounds to nearest, ties to even,
  and panics when the result does not fit in `I16F16`) and convert back.
  A panic is modelled as `Option.none`.  Rounding of a fixed-point bit
  pattern back to the 24-bit `f32` mantissa is not modelled; every value
  appearing in a theorem below is exactly representable.
* `Curve::voltage_to_soc` first converts the query voltage to an `i32`
  millivolt count and performs all comparisons on integers; the embedding
  takes that millivolt integer as its argument.  The final ratio/SOC
  arithmetic is done in `f32` in the source and in `ℚ` here; every
  concrete evaluation used below is exact in both.
-/

set_option maxRecDepth 8000

namespace BatteryEstimator

/-- Error taxonomy of `src/src/error.rs`. -/
inductive Error where
  | VoltageOutOfRange
  | InvalidCurve
  | NumericalError
deriving DecidableEq, Repr

/-! ## I16F16 fixed-point primitives (the `fixed` crate, release semantics) -/

/-- Two's-complement wrap of an integer into the signed 32-bit range,
the release-mode overflow behaviour of the `fixed` crate's `I16F16`. -/
def wrap32 (x : ℤ) : ℤ := (x + 2147483648) % 4294967296 - 2147483648

/-- `I16F16` addition (bit patterns). -/
def fadd (a b : ℤ) : ℤ := wrap32 (a + b)

/-- `I16F16` subtraction (bit patterns). -/
def fsub (a b : ℤ) : ℤ := wrap32 (a - b)

/-- `I16F16` multiplication: full 64-bit product, arithmetic shift right by
16 (flooring), truncated to 32 bits. -/
def fmul (a b : ℤ) : ℤ := wrap32 (Int.fdiv (a * b) 65536)

/-- `I16F16` division: dividend widened by 16 fractional bits, 64-bit
quotient (truncation toward zero), truncated to 32 bits.  The rounding
direction of the quotient is irrelevant to every theorem below. -/
def fdivF (a b : ℤ) : ℤ := wrap32 (Int.tdiv (a * 65536) b)

/-- Rust's `Ord::clamp`. -/
def clampI (x lo hi : ℤ) : ℤ := if x < lo then lo else if hi < x then hi else x

/-! ## Compensation formulas, `src/src/compensation.rs`

Fixed-point constants appear as their bit patterns, exactly as produced by
`Fixed::from_num` (round to nearest, ties to even):
`0.05 ↦ 3277`, `-0.30 ↦ -19661`, `2 ↦ 131072`, `0.5 ↦ 32768`,
`1 ↦ 65536`, `25 ↦ 1638400`, `100 ↦ 6553600`; `from_bits(328)` is the
default temperature coefficient (≈ 0.005). -/

namespace Compensation

/-- `compensate_temperature_fixed` of `src/src/compensation.rs:65-99`.
The warm branch caps its own change at `+0.05`; the final bound only
checks the `-0.30` floor (the source comments that the upper cap was
already applied — which the cold branch never does). -/
def compensate_temperature_fixed (soc temperature nominal_temp coefficient : ℤ) : ℤ :=
  let delta_temp := fsub temperature nominal_temp
  let capacity_change :=
    if delta_temp < 0 then
      fmul delta_temp coefficient
    else
      let change := fdivF (fmul delta_temp coefficient) 131072
      if 3277 < change then 3277 else change
  let bounded_change := if capacity_change < -19661 then -19661 else capacity_change
  fmul soc (fadd 65536 bounded_change)

/-- `compensate_aging_fixed` of `src/src/compensation.rs:138-159`.
Only the `0.5` ceiling is enforced on `age_years * aging_factor`. -/
def compensate_aging_fixed (soc age_years aging_factor : ℤ) : ℤ :=
  if age_years < 0 then soc
  else if aging_factor < 0 then soc
  else
    let age_compensation := fmul age_years aging_factor
    let clamped := if 32768 < age_compensation then 32768 else age_compensation
    fmul soc (fsub 65536 clamped)

/-- `default_temperature_compensation_fixed` of `src/src/compensation.rs:191-196`:
nominal temperature `25.0` (bits `25 << 16`), coefficient `from_bits(328)`. -/
def default_temperature_compensation_fixed (soc temperature : ℤ) : ℤ :=
  compensate_temperature_fixed soc temperature 1638400 328

end Compensation

/-! ## The parallel twins in `src/src/fixed_point.rs` (lines 655-701) -/

namespace FixedPointRs

/-- `compensate_temperature_fixed` of `src/src/fixed_point.rs:655-680`.
Unlike the `compensation.rs` twin, the final bound is a two-sided
`clamp(-0.30, 0.05)`, and the warm branch multiplies by `0.5` instead of
dividing by `2`. -/
def compensate_temperature_fixed (soc temperature nominal_temp coefficient : ℤ) : ℤ :=
  let delta_temp := fsub temperature nominal_temp
  let capacity_change :=
    if delta_temp < 0 then
      fmul delta_temp coefficient
    else
      min (fmul (fmul delta_temp coefficient) 32768) 3277
  let bounded_change := clampI capacity_change (-19661) 3277
  fmul soc (fadd 65536 bounded_change)

/-- `compensate_aging_fixed` of `src/src/fixed_point.rs:690-701`:
two-sided `clamp(0, 0.5)` of the compensation. -/
def compensate_aging_fixed (soc age_years aging_factor : ℤ) : ℤ :=
  if age_years < 0 ∨ aging_factor < 0 then soc
  else
    let bounded_comp := clampI (fmul age_years aging_factor) 0 32768
    fmul soc (fsub 65536 bounded_comp)

end FixedPointRs

/-! ## The `f32` wrappers -/

/-- An `f32` value as the float wrappers observe it: a finite rational,
NaN, or a signed infinity. -/
inductive F32 where
  | finite (q : ℚ)
  | nan
  | inf
  | negInf
deriving DecidableEq, Repr

/-- `f32::is_finite`. -/
def F32.isFinite : F32 → Bool
  | .finite _ => true
  | _ => false

/-- The comparison `x < 0.0` on an `f32` (false for NaN). -/
def F32.ltZero : F32 → Bool
  | .finite q => decide (q < 0)
  | .nan => false
  | .inf => false
  | .negInf => true

/-- Floor of a rational as an integer (denominators are positive). -/
def qfloor (x : ℚ) : ℤ := Int.fdiv x.num x.den

/-- Round a rational to the nearest integer, ties to even. -/
def rnte (x : ℚ) : ℤ :=
  let f := qfloor x
  let r := x - f
  if r < 1/2 then f
  else if 1/2 < r then f + 1
  else if Even f then f else f + 1

/-- `Fixed::from_num::<f32>`: round the value to the nearest `I16F16`
bit pattern (ties to even) and panic — `none` — when it does not fit or
the input is not finite. -/
def fromNum : F32 → Option ℤ
  | .finite q =>
      let b := rnte (q * 65536)
      if -2147483648 ≤ b ∧ b ≤ 2147483647 then some b else none
  | _ => none

/-- `Fixed::to_num::<f32>`: the exact rational value of the bit pattern
(`f32` mantissa rounding is not modelled; see the header). -/
def toF32 (b : ℤ) : F32 := .finite (b / 65536)

/-- `compensate_temperature` of `src/src/compensation.rs:253-274`:
finiteness guard, conversion to fixed point, fixed computation,
conversion back.  `none` models a `from_num` panic. -/
def compensate_temperature (soc temperature nominal_temp coefficient : F32) : Option F32 :=
  if soc.isFinite && temperature.isFinite && nominal_temp.isFinite && coefficient.isFinite then
    match fromNum soc, fromNum temperature, fromNum nominal_temp, fromNum coefficient with
    | some s, some t, some n, some c =>
        some (toF32 (Compensation.compensate_temperature_fixed s t n c))
    | _, _, _, _ => none
  else some soc

/-- `compensate_aging` of `src/src/compensation.rs:312-333`. -/
def compensate_aging (soc age_years aging_factor : F32) : Option F32 :=
  if soc.isFinite && age_years.isFinite && aging_factor.isFinite then
    if age_years.ltZero then some soc
    else if aging_factor.ltZero then some soc
    else
      match fromNum soc, fromNum age_years, fromNum aging_factor with
      | some s, some a, some f =>
          some (toF32 (Compensation.compensate_aging_fixed s a f))
      | _, _, _ => none
  else some soc

/-! ## Curve points and curves, `src/src/types.rs` and `src/src/curve.rs` -/

/-- `CurvePoint` of `src/src/types.rs`: voltage in millivolts (`u16`),
SOC in tenths of a percent (`u16`). -/
structure CurvePoint where
  voltage_mv : ℕ
  soc_tenth : ℕ
deriving DecidableEq, Repr

/-- `CurvePoint::soc`: `soc_tenth as f32 / 10.0` (exact in `f32` up to the
tenth, embedded exactly in `ℚ`). -/
def CurvePoint.soc (p : CurvePoint) : ℚ := (p.soc_tenth : ℚ) / 10

/-- `MAX_CURVE_POINTS` of `src/src/curve.rs`. -/
def MAX_CURVE_POINTS : ℕ := 32

/-- `Curve` of `src/src/curve.rs`: the stored points (the at-most-32
prefix of the input) and the cached min/max voltages. -/
structure Curve where
  points : List CurvePoint
  min_voltage_mv : ℕ
  max_voltage_mv : ℕ
deriving DecidableEq, Repr

/-- The running minimum of `Curve::new`: starts at the first stored
voltage, replaced only on strict decrease. -/
def minV : List CurvePoint → ℕ
  | [] => 0
  | p :: rest => rest.foldl (fun m q => if q.voltage_mv < m then q.voltage_mv else m) p.voltage_mv

/-- The running maximum of `Curve::new`: starts at the first stored
voltage, replaced only on strict increase. -/
def maxV : List CurvePoint → ℕ
  | [] => 0
  | p :: rest => rest.foldl (fun m q => if m < q.voltage_mv then q.voltage_mv else m) p.voltage_mv

/-- `Curve::new` of `src/src/curve.rs:111-143`: store at most 32 points,
track the min/max voltage of the stored prefix. -/
def Curve.new (ps : List CurvePoint) : Curve :=
  ⟨ps.take MAX_CURVE_POINTS, minV (ps.take MAX_CURVE_POINTS), maxV (ps.take MAX_CURVE_POINTS)⟩

/-- The boundary loops of `voltage_to_soc` (lines 192-213): scan the
stored points and return the SOC of the first one whose voltage equals
the target, defaulting to the initial `points[0].soc()`. -/
def findFirstSoc (ps : List CurvePoint) (tgt : ℕ) (dflt : ℚ) : ℚ :=
  match ps with
  | [] => dflt
  | p :: rest => if p.voltage_mv = tgt then p.soc else findFirstSoc rest tgt dflt

/-- `points[0].soc()`, the initial value of both boundary loops. -/
def headSocD : List CurvePoint → ℚ
  | [] => 0
  | p :: _ => p.soc

/-- The linear interpolation value of `voltage_to_soc` (lines 226-227):
`prev.soc() + ratio * (curr.soc() - prev.soc())` with
`ratio = (voltage_mv - prev.voltage_mv) / (curr.voltage_mv - prev.voltage_mv)`. -/
def lerp (prev curr : CurvePoint) (v : ℤ) : ℚ :=
  prev.soc + (((v : ℚ) - (prev.voltage_mv : ℚ)) / ((curr.voltage_mv : ℚ) - (prev.voltage_mv : ℚ)))
    * (curr.soc - prev.soc)

/-- The segment-search loop of `voltage_to_soc` (lines 216-230): walk
consecutive pairs, stop at the first pair bracketing `v`, fail on a
zero-width bracket, fall through to `NumericalError`. -/
def interpSearch (prev : CurvePoint) (rest : List CurvePoint) (v : ℤ) : Except Error ℚ :=
  match rest with
  | [] => .error .NumericalError
  | curr :: tail =>
      if (prev.voltage_mv : ℤ) ≤ v ∧ v ≤ (curr.voltage_mv : ℤ) then
        if (curr.voltage_mv : ℤ) - (prev.voltage_mv : ℤ) = 0 then .error .NumericalError
        else .ok (lerp prev curr v)
      else interpSearch curr tail v

/-- Specification predicate for claim C6: the first pair of consecutive
stored points bracketing `v` (in scan order, exactly as the source loop
visits them) has zero voltage span. -/
def firstBracketZero (prev : CurvePoint) (rest : List CurvePoint) (v : ℤ) : Bool :=
  match rest with
  | [] => false
  | curr :: tail =>
      if (prev.voltage_mv : ℤ) ≤ v ∧ v ≤ (curr.voltage_mv : ℤ) then
        curr.voltage_mv == prev.voltage_mv
      else firstBracketZero curr tail v

/-- `Curve::voltage_to_soc` of `src/src/curve.rs:184-233`.  The argument
is the millivolt integer `(voltage * 1000.0) as i32`; all voltage
comparisons in the source happen on that integer. -/
def Curve.voltage_to_soc (c : Curve) (vmv : ℤ) : Except Error ℚ :=
  if c.points.length < 2 then .error .InvalidCurve
  else if (c.max_voltage_mv : ℤ) ≤ vmv then
    .ok (findFirstSoc c.points c.max_voltage_mv (headSocD c.points))
  else if vmv ≤ (c.min_voltage_mv : ℤ) then
    .ok (findFirstSoc c.points c.min_voltage_mv (headSocD c.points))
  else
    match c.points with
    | [] => .error .NumericalError
    | p :: rest => interpSearch p rest vmv

/-! ## Estimator, `src/src/estimator.rs` -/

/-- `EstimatorConfig` of `src/src/estimator.rs:12-23`: fixed-point
parameters and a bit-field of enable flags (bit 0 = temperature,
bit 1 = aging). -/
structure EstimatorConfig where
  nominal_temperature : ℤ
  temperature_coefficient : ℤ
  age_years : ℤ
  aging_factor : ℤ
  flags : ℕ
deriving DecidableEq, Repr

/-- `EstimatorConfig::default`: nominal `25.0` (bits `25 << 16`),
coefficient `from_bits(328)`, age `0`, aging factor `from_bits(1311)`,
no flags set. -/
def EstimatorConfig.default : EstimatorConfig := ⟨1638400, 328, 0, 1311, 0⟩

/-- `SocEstimator` of `src/src/estimator.rs:101-104`: a curve reference
plus a configuration. -/
structure SocEstimator where
  curve : Curve
  config : EstimatorConfig

/-- Modelled from the spec: `Curve::voltage_to_soc_fixed` is called by
`SocEstimator::estimate_soc_with_temp_fixed` (src/src/estimator.rs:180)
but its definition is not under src — only its callers are.  Spec §4.3
requires the fixed-point path to have control flow and boundary/error
semantics identical to `voltage_to_soc`, differing only in numeric
representation; it is modelled as the float path applied to the truncated
millivolt value of the fixed-point voltage, with the resulting SOC
quantised to `I16F16` bits.  The theorems below only condition on this
function's result, never on its internals. -/
def Curve.voltage_to_soc_fixed (c : Curve) (v : ℤ) : Except Error ℤ :=
  match c.voltage_to_soc (Int.tdiv (v * 1000) 65536) with
  | .error e => .error e
  | .ok q => .ok (rnte (q * 65536))

/-- `SocEstimator::estimate_soc_with_temp_fixed` of
`src/src/estimator.rs:175-183`: base lookup, then *always* the default
temperature compensation (never the configured parameters or flags),
then a clamp to `[0, 100]`. -/
def SocEstimator.estimate_soc_with_temp_fixed (e : SocEstimator) (voltage temperature : ℤ) :
    Except Error ℤ :=
  match e.curve.voltage_to_soc_fixed voltage with
  | .error err => .error err
  | .ok base_soc =>
      .ok (clampI (Compensation.default_temperature_compensation_fixed base_soc temperature)
        0 6553600)

/-- `SocEstimator::estimate_soc_with_temp` of `src/src/estimator.rs:200-212`,
the float variant: a lookup error propagates as `Err`; otherwise the base
SOC and the temperature are converted with `Fixed::from_num` — this method
has *no* finiteness guard, so a non-finite temperature or a finite one
outside the `I16F16` range panics (`none`) — then the *default* temperature
compensation is applied, clamped to `[0, 100]`, and converted back.  The
voltage argument is the millivolt integer, as in `Curve.voltage_to_soc`. -/
def SocEstimator.estimate_soc_with_temp (e : SocEstimator) (vmv : ℤ) (temperature : F32) :
    Option (Except Error F32) :=
  match e.curve.voltage_to_soc vmv with
  | .error err => some (.error err)
  | .ok base_soc =>
      match fromNum (.finite base_soc), fromNum temperature with
      | some s, some t =>
          some (.ok (toF32
            (clampI (Compensation.default_temperature_compensation_fixed s t) 0 6553600)))
      | _, _ => none

instance {ε α : Type} [DecidableEq ε] [DecidableEq α] : DecidableEq (Except ε α) := fun x y => by
  cases x <;> cases y
  case error.error a b => exact decidable_of_iff (a = b) (by simp)
  case error.ok a b => exact .isFalse (by simp)
  case ok.error a b => exact .isFalse (by simp)
  case ok.ok a b => exact decidable_of_iff (a = b) (by simp)


lemma wrap32_eq_self {x : ℤ} (h1 : -2147483648 ≤ x) (h2 : x < 2147483648) :
    wrap32 x = x := by
  unfold wrap32
  rw [Int.emod_eq_of_lt (by omega) (by omega)]
  omega

lemma wrap32_zero : wrap32 0 = 0 := by decide

lemma fmul_zero_left (b : ℤ) : fmul 0 b = 0 := by
  simp [fmul, Int.fdiv, wrap32_zero]

lemma fmul_one_right {a : ℤ} (h1 : -2147483648 ≤ a) (h2 : a < 2147483648) :
    fmul a 65536 = a := by
  unfold fmul
  rw [Int.mul_fdiv_cancel _ (by norm_num), wrap32_eq_self h1 h2]

lemma rnte_intCast (b : ℤ) : rnte (b : ℚ) = b := by
  have hf : qfloor (b : ℚ) = b := by
    simp [qfloor, Rat.num_intCast, Rat.den_intCast]
  norm_num [rnte, hf]

lemma rnte_eq_intCast {x : ℚ} (b : ℤ) (h : x = (b : ℚ)) : rnte x = b := by
  rw [h, rnte_intCast]

lemma Curve.new_eq_of_le (ps : List CurvePoint) (h : ps.length ≤ 32) :
    Curve.new ps = ⟨ps, minV ps, maxV ps⟩ := by
  simp [Curve.new, MAX_CURVE_POINTS, List.take_of_length_le h]

/-! ## Helper lemmas about ordered curves -/

lemma chain_le_all {p : CurvePoint} {rest : List CurvePoint}
    (h : List.Chain' (fun a b => a.voltage_mv ≤ b.voltage_mv) (p :: rest)) :
    ∀ q ∈ rest, p.voltage_mv ≤ q.voltage_mv := by
  induction rest generalizing p with
  | nil => simp
  | cons c t ih =>
    intro q hq
    obtain ⟨hpc, hrest⟩ := List.chain'_cons.mp h
    rcases List.mem_cons.mp hq with rfl | hq'
    · exact hpc
    · exact le_trans hpc (ih hrest q hq')

lemma chain_lt_all {p : CurvePoint} {rest : List CurvePoint}
    (h : List.Chain' (fun a b => a.voltage_mv < b.voltage_mv) (p :: rest)) :
    ∀ q ∈ rest, p.voltage_mv < q.voltage_mv := by
  induction rest generalizing p with
  | nil => simp
  | cons c t ih =>
    intro q hq
    obtain ⟨hpc, hrest⟩ := List.chain'_cons.mp h
    rcases List.mem_cons.mp hq with rfl | hq'
    · exact hpc
    · exact lt_trans hpc (ih hrest q hq')

lemma foldl_min_const {m : ℕ} {rest : List CurvePoint}
    (h : ∀ q ∈ rest, m ≤ q.voltage_mv) :
    rest.foldl (fun m q => if q.voltage_mv < m then q.voltage_mv else m) m = m := by
  induction rest with
  | nil => rfl
  | cons c t ih =>
    have hc : ¬ c.voltage_mv < m := not_lt.mpr (h c (by simp))
    simp only [List.foldl, hc, if_false]
    exact ih fun q hq => h q (by simp [hq])

lemma minV_sorted {p : CurvePoint} {rest : List CurvePoint}
    (h : List.Chain' (fun a b => a.voltage_mv ≤ b.voltage_mv) (p :: rest)) :
    minV (p :: rest) = p.voltage_mv := by
  unfold minV
  exact foldl_min_const (chain_le_all h)

lemma foldl_max_sorted {c : CurvePoint} {t : List CurvePoint}
    (h : List.Chain' (fun a b => a.voltage_mv ≤ b.voltage_mv) (c :: t)) :
    t.foldl (fun m q => if m < q.voltage_mv then q.voltage_mv else m) c.voltage_mv
      = ((c :: t).getLast (by simp)).voltage_mv := by
  induction t generalizing c with
  | nil => rfl
  | cons d t' ih =>
    obtain ⟨hcd, hrest⟩ := List.chain'_cons.mp h
    have hstep : (if c.voltage_mv < d.voltage_mv then d.voltage_mv else c.voltage_mv)
        = d.voltage_mv := by
      rcases lt_or_eq_of_le hcd with hlt | heq
      · simp [hlt]
      · simp [heq]
    have hgl : (c :: d :: t').getLast (by simp) = (d :: t').getLast (by simp) :=
      List.getLast_cons (by simp)
    simp only [List.foldl, hstep]
    rw [ih hrest, hgl]

lemma maxV_sorted {p : CurvePoint} {rest : List CurvePoint}
    (h : List.Chain' (fun a b => a.voltage_mv ≤ b.voltage_mv) (p :: rest)) :
    maxV (p :: rest) = ((p :: rest).getLast (by simp)).voltage_mv := by
  simpa only [maxV] using foldl_max_sorted h

lemma findFirstSoc_head {p : CurvePoint} {rest : List CurvePoint} {tgt : ℕ} {dflt : ℚ}
    (h : p.voltage_mv = tgt) : findFirstSoc (p :: rest) tgt dflt = p.soc := by
  simp [findFirstSoc, h]

lemma findFirstSoc_last_strict {p : CurvePoint} {rest : List CurvePoint} {dflt : ℚ}
    (h : List.Chain' (fun a b => a.voltage_mv < b.voltage_mv) (p :: rest)) :
    findFirstSoc (p :: rest) (((p :: rest).getLast (by simp)).voltage_mv) dflt
      = ((p :: rest).getLast (by simp)).soc := by
  induction rest generalizing p dflt with
  | nil => simp [findFirstSoc, List.getLast]
  | cons c t ih =>
    obtain ⟨hpc, hrest⟩ := List.chain'_cons.mp h
    have hlast : ((p :: c :: t).getLast (by simp)) = ((c :: t).getLast (by simp)) :=
      List.getLast_cons (by simp)
    have hmem : ((c :: t).getLast (by simp)) ∈ c :: t := List.getLast_mem (by simp)
    have hne : p.voltage_mv ≠ ((c :: t).getLast (by simp)).voltage_mv :=
      ne_of_lt (chain_lt_all h _ hmem)
    rw [hlast]
    simp only [findFirstSoc, hne, if_false]
    exact ih hrest

lemma interpSearch_ne_invalid (prev : CurvePoint) (rest : List CurvePoint) (v : ℤ) :
    interpSearch prev rest v ≠ .error .InvalidCurve := by
  induction rest generalizing prev with
  | nil => simp [interpSearch]
  | cons c t ih =>
    unfold interpSearch
    split_ifs <;> simp_all

lemma interpSearch_pos_span (v : ℤ) (prev : CurvePoint) (rest : List CurvePoint)
    (h : List.Chain' (fun a b => a.voltage_mv ≤ b.voltage_mv) (prev :: rest))
    (hv : (prev.voltage_mv : ℤ) < v)
    (hex : ∃ q ∈ rest, v ≤ (q.voltage_mv : ℤ)) :
    ∃ l₁ pr cu l₂, prev :: rest = l₁ ++ pr :: cu :: l₂ ∧
      (pr.voltage_mv : ℤ) < v ∧ v ≤ (cu.voltage_mv : ℤ) ∧
      interpSearch prev rest v = .ok (lerp pr cu v) := by
  induction rest generalizing prev with
  | nil => exact absurd hex (by simp)
  | cons curr tail ih =>
    by_cases hvc : v ≤ (curr.voltage_mv : ℤ)
    · refine ⟨[], prev, curr, tail, rfl, hv, hvc, ?_⟩
      have hspan : ¬ ((curr.voltage_mv : ℤ) - (prev.voltage_mv : ℤ) = 0) := by omega
      simp [interpSearch, le_of_lt hv, hvc, hspan]
    · have hcv : (curr.voltage_mv : ℤ) < v := not_le.mp hvc
      have hchain := (List.chain'_cons.mp h).2
      have hex' : ∃ q ∈ tail, v ≤ (q.voltage_mv : ℤ) := by
        obtain ⟨q, hq, hvq⟩ := hex
        rcases List.mem_cons.mp hq with rfl | hq'
        · omega
        · exact ⟨q, hq', hvq⟩
      obtain ⟨l₁, pr, cu, l₂, heq, h1, h2, h3⟩ := ih curr hchain hcv hex'
      refine ⟨prev :: l₁, pr, cu, l₂, by rw [List.cons_append, ← heq], h1, h2, ?_⟩
      rw [show interpSearch prev (curr :: tail) v = interpSearch curr tail v by
        simp [interpSearch, hvc]]
      exact h3

lemma interpSearch_exact (v : ℤ) (prev : CurvePoint) (rest : List CurvePoint) (q : CurvePoint)
    (h : List.Chain' (fun a b => a.voltage_mv < b.voltage_mv) (prev :: rest))
    (hv : (prev.voltage_mv : ℤ) < v) (hq : q ∈ rest) (hqv : (q.voltage_mv : ℤ) = v) :
    interpSearch prev rest v = .ok q.soc := by
  induction rest generalizing prev with
  | nil => exact absurd hq (by simp)
  | cons curr tail ih =>
    rcases List.mem_cons.mp hq with rfl | hq'
    · have hqQ : (v : ℚ) = (q.voltage_mv : ℚ) := by exact_mod_cast hqv.symm
      have hneZ : (prev.voltage_mv : ℤ) < (q.voltage_mv : ℤ) := by omega
      have hneQ : (q.voltage_mv : ℚ) - (prev.voltage_mv : ℚ) ≠ 0 := by
        have : (prev.voltage_mv : ℚ) < (q.voltage_mv : ℚ) := by exact_mod_cast hneZ
        linarith
      have hlerp : lerp prev q v = q.soc := by
        unfold lerp
        rw [hqQ, div_self hneQ, one_mul]
        ring
      have hspan : ¬ ((q.voltage_mv : ℤ) - (prev.voltage_mv : ℤ) = 0) := by omega
      simp [interpSearch, le_of_lt hv, le_of_eq hqv.symm, hspan, hlerp]
    · have hchain := (List.chain'_cons.mp h).2
      have hcq : curr.voltage_mv < q.voltage_mv := chain_lt_all hchain q hq'
      have hvcurr : (curr.voltage_mv : ℤ) < v := by
        have : (curr.voltage_mv : ℤ) < (q.voltage_mv : ℤ) := by exact_mod_cast hcq
        omega
      rw [show interpSearch prev (curr :: tail) v = interpSearch curr tail v by
        simp [interpSearch, not_le.mpr hvcurr]]
      exact ih curr hchain hvcurr hq'

lemma firstBracketZero_error (prev : CurvePoint) (rest : List CurvePoint) (v : ℤ)
    (h : firstBracketZero prev rest v = true) :
    interpSearch prev rest v = .error .NumericalError := by
  induction rest generalizing prev with
  | nil => simp [firstBracketZero] at h
  | cons curr tail ih =>
    unfold firstBracketZero at h
    unfold interpSearch
    by_cases hbr : (prev.voltage_mv : ℤ) ≤ v ∧ v ≤ (curr.voltage_mv : ℤ)
    · rw [if_pos hbr] at h ⊢
      have hcp : curr.voltage_mv = prev.voltage_mv := by simpa using h
      rw [if_pos (by omega : (curr.voltage_mv : ℤ) - (prev.voltage_mv : ℤ) = 0)]
    · rw [if_neg hbr] at h ⊢
      exact ih curr h

/-! ## Claim theorems -/

/-- Claim C1: the spec requires the temperature change to be clamped to
`[-0.30, +0.05]`, so the result should never exceed `1.05 * soc`.  The
exported `compensation.rs` twin only floors the cold branch: with
`soc = 100`, `temperature = 0`, `nominal_temp = 25`, `coefficient = -1`
(bits `6553600, 0, 1638400, -65536`) the cold branch produces a change of
`+25.0` that is never capped, and the result is `2600.0`
(bits `170393600`), far above `1.05 * soc = 105` (bits `6881280`).  The
`fixed_point.rs` twin clamps both sides and returns `≈ 105.0015`
(bits `6881300`) on the same input. -/
theorem c1_negative_coefficient_escapes_bound :
    Compensation.compensate_temperature_fixed 6553600 0 1638400 (-65536) = 170393600 ∧
    (6881280 : ℤ) < 170393600 ∧
    FixedPointRs.compensate_temperature_fixed 6553600 0 1638400 (-65536) = 6881300 := by
  refine ⟨by decide, by decide, by decide⟩

/-- Claim C9: the spec caps the aging compensation at `0.5`, so the result
should satisfy `0.5 * soc ≤ result ≤ soc` for non-negative inputs.  With
`soc = 1.0`, `age_years = 192`, `aging_factor = 192` (all non-negative and
representable), `age_years * aging_factor = 36864` overflows `I16F16` and
wraps to `-28672.0`; the clamp in `compensation.rs` only caps values above
`0.5`, so the compensation stays `-28672.0` and the function returns
`28673.0` — larger than `soc` itself.  (In a debug build the same input
panics instead of wrapping.) -/
theorem c9_aging_overflow_escapes_cap :
    Compensation.compensate_aging_fixed 65536 12582912 12582912 = 1879113728 ∧
    (65536 : ℤ) < 1879113728 ∧
    compensate_aging (.finite 1) (.finite 192) (.finite 192) = some (.finite 28673) := by
  have e1 : rnte ((65536 : ℚ)) = (65536 : ℤ) := rnte_eq_intCast _ (by norm_num)
  have e2 : rnte ((12582912 : ℚ)) = (12582912 : ℤ) := rnte_eq_intCast _ (by norm_num)
  have hfix : Compensation.compensate_aging_fixed 65536 12582912 12582912 = 1879113728 := by
    decide
  refine ⟨hfix, by decide, ?_⟩
  norm_num [compensate_aging, F32.isFinite, F32.ltZero, fromNum, e1, e2, hfix, toF32]

/-- Claim C7, counterexample: `compensate_temperature` is *not* total over
all `f32` inputs.  `soc = 40000.0` is finite but does not fit in `I16F16`
(max `≈ 32767.99998`), so the internal `Fixed::from_num` conversion
panics (modelled as `none`) instead of degrading to "no correction".
`compensate_aging` fails the same way. -/
theorem c7_finite_overflow_panics :
    (F32.finite 40000).isFinite = true ∧
    compensate_temperature (.finite 40000) (.finite 25) (.finite 25) (.finite 0) = none ∧
    compensate_aging (.finite 40000) (.finite 1) (.finite 0) = none := by
  have ebig : rnte ((2621440000 : ℚ)) = (2621440000 : ℤ) := rnte_eq_intCast _ (by norm_num)
  have e25 : rnte ((1638400 : ℚ)) = (1638400 : ℤ) := rnte_eq_intCast _ (by norm_num)
  have e1 : rnte ((65536 : ℚ)) = (65536 : ℤ) := rnte_eq_intCast _ (by norm_num)
  have e0 : rnte ((0 : ℚ)) = (0 : ℤ) := rnte_eq_intCast _ (by norm_num)
  refine ⟨rfl, ?_, ?_⟩ <;>
    norm_num [compensate_temperature, compensate_aging, F32.isFinite, F32.ltZero, fromNum,
      ebig, e25, e1, e0]

/-- Claim C8, counterexample: `compensate_temperature(soc, t, t, c) = soc`
fails for a finite `soc` that is not on the `2^-16` quantisation grid:
`soc = 2^-20` is rounded to `0` by `Fixed::from_num`, so the function
returns `0.0`, not `soc`. -/
theorem c8_identity_fails_offgrid :
    compensate_temperature (.finite (1/1048576)) (.finite 25) (.finite 25) (.finite 0)
      = some (.finite 0) ∧ (1/1048576 : ℚ) ≠ 0 := by
  have esoc : rnte ((1 : ℚ)/16) = (0 : ℤ) := by
    have hq : qfloor ((1 : ℚ)/16) = 0 := by with_unfolding_all decide
    norm_num [rnte, hq]
  have e25 : rnte ((1638400 : ℚ)) = (1638400 : ℤ) := rnte_eq_intCast _ (by norm_num)
  have e0 : rnte ((0 : ℚ)) = (0 : ℤ) := rnte_eq_intCast _ (by norm_num)
  have hfix : Compensation.compensate_temperature_fixed 0 1638400 1638400 0 = 0 := by decide
  refine ⟨?_, by norm_num⟩
  norm_num [compensate_temperature, F32.isFinite, fromNum, esoc, e25, e0, hfix, toF32]

/-- Claim C2, counterexample: for the non-decreasing curve
`(3.0V, 0%), (3.5V, 40%), (3.5V, 100%)` the maximum voltage `3.5V` is
carried by two points; querying at `p₂.voltage = 3.5V` (3500 mV) returns
the SOC of the *first* point carrying the maximum voltage (`40`), not
`p_{n-1}.soc = 100` as the claim states. -/
theorem c2_duplicate_max_cex :
    ((⟨3000,0⟩ : CurvePoint).voltage_mv ≤ (⟨3500,400⟩ : CurvePoint).voltage_mv ∧
      (⟨3500,400⟩ : CurvePoint).voltage_mv ≤ (⟨3500,1000⟩ : CurvePoint).voltage_mv) ∧
    (Curve.new [⟨3000,0⟩, ⟨3500,400⟩, ⟨3500,1000⟩]).voltage_to_soc
      ((⟨3500,1000⟩ : CurvePoint).voltage_mv : ℤ) = .ok 40 ∧
    (40 : ℚ) ≠ (⟨3500,1000⟩ : CurvePoint).soc := by
  refine ⟨by decide, ?_, by norm_num [CurvePoint.soc]⟩
  rw [Curve.new_eq_of_le _ (by norm_num)]
  norm_num [Curve.voltage_to_soc, minV, maxV, List.foldl, interpSearch, findFirstSoc,
    headSocD, lerp, CurvePoint.soc]

/-- Claim C5, counterexample: for the non-decreasing two-point curve
`(3.5V, 0%), (3.5V, 100%)`, interpolating at `p₁.voltage = 3.5V` returns
`Ok 0` (the first point carrying the maximum voltage), which is `100`
percentage points away from `p₁.soc = 100` — far outside the `±0.1`
tolerance. -/
theorem c5_duplicate_sample_cex :
    ((⟨3500,0⟩ : CurvePoint).voltage_mv ≤ (⟨3500,1000⟩ : CurvePoint).voltage_mv) ∧
    (Curve.new [⟨3500,0⟩, ⟨3500,1000⟩]).voltage_to_soc
      ((⟨3500,1000⟩ : CurvePoint).voltage_mv : ℤ) = .ok 0 ∧
    ¬ |(0 : ℚ) - (⟨3500,1000⟩ : CurvePoint).soc| ≤ 1/10 := by
  refine ⟨by decide, ?_, by norm_num [CurvePoint.soc]⟩
  rw [Curve.new_eq_of_le _ (by norm_num)]
  norm_num [Curve.voltage_to_soc, minV, maxV, List.foldl, interpSearch, findFirstSoc,
    headSocD, lerp, CurvePoint.soc]

/-- Claim C6, counterexample to its "i.e." paraphrase: in the curve
`(3.0V, 0%), (3.5V, 40%), (3.5V, 60%), (4.0V, 100%)` the duplicate-voltage
pair `p₁, p₂` brackets the query `3.5V` (3500 mV), yet the result is
`Ok 40` — the scan stops at the earlier bracketing segment
`(3.0V, 3.5V)` and never reaches the zero-span pair. -/
theorem c6_bracketing_duplicates_cex :
    ((⟨3500,400⟩ : CurvePoint).voltage_mv : ℤ) ≤ 3500 ∧
    (3500 : ℤ) ≤ ((⟨3500,600⟩ : CurvePoint).voltage_mv : ℤ) ∧
    (⟨3500,400⟩ : CurvePoint).voltage_mv = (⟨3500,600⟩ : CurvePoint).voltage_mv ∧
    (Curve.new [⟨3000,0⟩, ⟨3500,400⟩, ⟨3500,600⟩, ⟨4000,1000⟩]).voltage_to_soc 3500 = .ok 40 ∧
    (Curve.new [⟨3000,0⟩, ⟨3500,400⟩, ⟨3500,600⟩, ⟨4000,1000⟩]).voltage_to_soc 3500
      ≠ .error .NumericalError := by
  have hval : (Curve.new [⟨3000,0⟩, ⟨3500,400⟩, ⟨3500,600⟩, ⟨4000,1000⟩]).voltage_to_soc 3500
      = .ok 40 := by
    rw [Curve.new_eq_of_le _ (by norm_num)]
    norm_num [Curve.voltage_to_soc, minV, maxV, List.foldl, interpSearch, findFirstSoc,
      headSocD, lerp, CurvePoint.soc]
  exact ⟨by decide, by decide, by decide, hval, by rw [hval]; simp⟩

/-- Claim C3: a curve storing fewer than 2 points fails with
`InvalidCurve` for every query voltage, and a curve with at least 2
stored points never returns `InvalidCurve`. -/
theorem c3_invalid_curve (ps : List CurvePoint) (v : ℤ) :
    (ps.length < 2 → (Curve.new ps).voltage_to_soc v = .error .InvalidCurve) ∧
    (2 ≤ ps.length → (Curve.new ps).voltage_to_soc v ≠ .error .InvalidCurve) := by
  have hlen : (Curve.new ps).points.length = min MAX_CURVE_POINTS ps.length := by
    simp [Curve.new, List.length_take]
  constructor
  · intro h
    have hlt : (Curve.new ps).points.length < 2 := by
      rw [hlen]; unfold MAX_CURVE_POINTS; omega
    unfold Curve.voltage_to_soc
    rw [if_pos hlt]
  · intro h
    have hge : ¬ (Curve.new ps).points.length < 2 := by
      rw [hlen]; unfold MAX_CURVE_POINTS; omega
    unfold Curve.voltage_to_soc
    rw [if_neg hge]
    split_ifs
    · simp
    · simp
    · cases hps : (Curve.new ps).points with
      | nil => simp
      | cons p rest =>
        simp only [hps]
        exact interpSearch_ne_invalid p rest v

/-- Witness for C3: the single-point curve `(3.7V, 50%)` fails with
`InvalidCurve` at `3.7V`, and the two-point curve `(3.0V, 0%)-(4.0V, 100%)`
never returns `InvalidCurve`, even far outside its range. -/
theorem c3_invalid_curve_witness :
    (Curve.new [⟨3700,500⟩]).voltage_to_soc 3700 = .error .InvalidCurve ∧
    (Curve.new [⟨3000,0⟩, ⟨4000,1000⟩]).voltage_to_soc 5000 ≠ .error .InvalidCurve :=
  ⟨(c3_invalid_curve [⟨3700,500⟩] 3700).1 (by norm_num),
   (c3_invalid_curve [⟨3000,0⟩, ⟨4000,1000⟩] 5000).2 (by norm_num)⟩

/-- Claim C2 (amended): for a stored, non-decreasing curve with at least
two points, every query at or below the minimum voltage returns
`Ok p₀.soc`; every query at or above the maximum voltage returns the SOC
of the *first* stored point carrying the maximum voltage; and when the
voltages are strictly increasing the latter is `p_{n-1}.soc`. -/
theorem c2_boundary_clamp_amended (p : CurvePoint) (rest : List CurvePoint)
    (h32 : (p :: rest).length ≤ 32) (h2 : 2 ≤ (p :: rest).length)
    (hord : List.Chain' (fun a b => a.voltage_mv ≤ b.voltage_mv) (p :: rest)) :
    (∀ v : ℤ, v ≤ ((Curve.new (p :: rest)).min_voltage_mv : ℤ) →
      (Curve.new (p :: rest)).voltage_to_soc v = .ok p.soc) ∧
    (∀ v : ℤ, ((Curve.new (p :: rest)).max_voltage_mv : ℤ) ≤ v →
      (Curve.new (p :: rest)).voltage_to_soc v
        = .ok (findFirstSoc (p :: rest) (Curve.new (p :: rest)).max_voltage_mv p.soc)) ∧
    (List.Chain' (fun a b => a.voltage_mv < b.voltage_mv) (p :: rest) →
      ∀ v : ℤ, ((Curve.new (p :: rest)).max_voltage_mv : ℤ) ≤ v →
      (Curve.new (p :: rest)).voltage_to_soc v
        = .ok (((p :: rest).getLast (by simp)).soc)) := by
  have hnew : Curve.new (p :: rest) = ⟨p :: rest, minV (p :: rest), maxV (p :: rest)⟩ :=
    Curve.new_eq_of_le _ h32
  have hmin : minV (p :: rest) = p.voltage_mv := minV_sorted hord
  have hmax : maxV (p :: rest) = ((p :: rest).getLast (by simp)).voltage_mv :=
    maxV_sorted hord
  have hlast_le : p.voltage_mv ≤ ((p :: rest).getLast (by simp)).voltage_mv := by
    rcases List.mem_cons.mp (List.getLast_mem (by simp : (p :: rest) ≠ [])) with heq | hmem
    · simp [heq]
    · exact chain_le_all hord _ hmem
  have hge : ¬ (p :: rest).length < 2 := by omega
  have hb : ∀ v : ℤ, ((Curve.new (p :: rest)).max_voltage_mv : ℤ) ≤ v →
      (Curve.new (p :: rest)).voltage_to_soc v
        = .ok (findFirstSoc (p :: rest) (Curve.new (p :: rest)).max_voltage_mv p.soc) := by
    intro v hv
    rw [hnew] at hv ⊢
    simp only at hv ⊢
    unfold Curve.voltage_to_soc
    simp only
    rw [if_neg hge, if_pos hv]
    rfl
  refine ⟨?_, hb, ?_⟩
  · intro v hv
    by_cases hvmax : ((Curve.new (p :: rest)).max_voltage_mv : ℤ) ≤ v
    · rw [hb v hvmax]
      rw [hnew] at hv hvmax ⊢
      simp only at hv hvmax ⊢
      rw [hmin] at hv
      rw [hmax] at hvmax ⊢
      have heq0 : ((p :: rest).getLast (by simp)).voltage_mv = p.voltage_mv := by omega
      rw [heq0, findFirstSoc_head rfl]
    · rw [hnew] at hv hvmax ⊢
      simp only at hv hvmax ⊢
      unfold Curve.voltage_to_soc
      simp only
      rw [if_neg hge, if_neg hvmax, if_pos hv, hmin, findFirstSoc_head rfl]
  · intro hstrict v hv
    rw [hb v hv, hnew]
    simp only
    rw [hmax, findFirstSoc_last_strict hstrict]

/-- Witness for C2 (amended) on the curve `(3.0V, 0%)-(4.0V, 100%)`:
`2.9V` returns the first point's SOC and `4.1V` returns the last
point's SOC. -/
theorem c2_boundary_clamp_amended_witness :
    (Curve.new [⟨3000,0⟩, ⟨4000,1000⟩]).voltage_to_soc 2900
      = .ok ((⟨3000,0⟩ : CurvePoint).soc) ∧
    (Curve.new [⟨3000,0⟩, ⟨4000,1000⟩]).voltage_to_soc 4100
      = .ok ((([⟨3000,0⟩, ⟨4000,1000⟩] : List CurvePoint).getLast (by simp)).soc) := by
  have h := c2_boundary_clamp_amended ⟨3000,0⟩ [⟨4000,1000⟩] (by norm_num) (by norm_num)
    (by norm_num [List.chain'_cons])
  refine ⟨h.1 2900 ?_, h.2.2 (by norm_num [List.chain'_cons]) 4100 ?_⟩ <;>
    rw [Curve.new_eq_of_le _ (by norm_num)] <;>
    norm_num [minV, maxV, List.foldl]

/-- Claim C4: for a stored non-decreasing curve and a query strictly
between the cached minimum and maximum voltages, `voltage_to_soc` returns
`Ok` of exactly `prev.soc + ratio * (curr.soc - prev.soc)` for the
bracketing segment found by the scan, whose span is positive. -/
theorem c4_linear_interpolation (p : CurvePoint) (rest : List CurvePoint) (v : ℤ)
    (h32 : (p :: rest).length ≤ 32)
    (hord : List.Chain' (fun a b => a.voltage_mv ≤ b.voltage_mv) (p :: rest))
    (hminv : ((Curve.new (p :: rest)).min_voltage_mv : ℤ) < v)
    (hmaxv : v < ((Curve.new (p :: rest)).max_voltage_mv : ℤ)) :
    ∃ l₁ pr cu l₂, (p :: rest) = l₁ ++ pr :: cu :: l₂ ∧
      (pr.voltage_mv : ℤ) ≤ v ∧ v ≤ (cu.voltage_mv : ℤ) ∧
      (pr.voltage_mv : ℤ) < (cu.voltage_mv : ℤ) ∧
      (Curve.new (p :: rest)).voltage_to_soc v = .ok (lerp pr cu v) := by
  have hnew : Curve.new (p :: rest) = ⟨p :: rest, minV (p :: rest), maxV (p :: rest)⟩ :=
    Curve.new_eq_of_le _ h32
  rw [hnew] at hminv hmaxv ⊢
  simp only at hminv hmaxv ⊢
  rw [minV_sorted hord] at hminv
  rw [maxV_sorted hord] at hmaxv
  cases rest with
  | nil =>
    exfalso
    simp [List.getLast] at hmaxv
    omega
  | cons c t =>
    have hglast : ((p :: c :: t).getLast (by simp)) = ((c :: t).getLast (by simp)) :=
      List.getLast_cons (by simp)
    have hexist : ∃ q ∈ c :: t, v ≤ (q.voltage_mv : ℤ) := by
      refine ⟨(c :: t).getLast (by simp), List.getLast_mem (by simp), ?_⟩
      rw [hglast] at hmaxv
      omega
    obtain ⟨l₁, pr, cu, l₂, heq, h1, hle2, h3⟩ :=
      interpSearch_pos_span v p (c :: t) hord hminv hexist
    refine ⟨l₁, pr, cu, l₂, heq, le_of_lt h1, hle2, by omega, ?_⟩
    unfold Curve.voltage_to_soc
    simp only
    rw [if_neg (by simp), if_neg (by rw [maxV_sorted hord]; omega),
      if_neg (by rw [minV_sorted hord]; omega)]
    exact h3

/-- Witness for C4 on the two-point curve `(3.0V, 0%)-(4.0V, 100%)`: the
scan finds a positive-span bracketing segment at `3.5V`, and the cited
instances evaluate to `50.0` at `3.5V` and `25.0` at `3.25V`. -/
theorem c4_linear_interpolation_witness :
    (∃ l₁ pr cu l₂, ([⟨3000,0⟩, ⟨4000,1000⟩] : List CurvePoint) = l₁ ++ pr :: cu :: l₂ ∧
      (pr.voltage_mv : ℤ) ≤ 3500 ∧ (3500 : ℤ) ≤ (cu.voltage_mv : ℤ) ∧
      (pr.voltage_mv : ℤ) < (cu.voltage_mv : ℤ) ∧
      (Curve.new [⟨3000,0⟩, ⟨4000,1000⟩]).voltage_to_soc 3500 = .ok (lerp pr cu 3500)) ∧
    (Curve.new [⟨3000,0⟩, ⟨4000,1000⟩]).voltage_to_soc 3500 = .ok 50 ∧
    (Curve.new [⟨3000,0⟩, ⟨4000,1000⟩]).voltage_to_soc 3250 = .ok 25 := by
  refine ⟨c4_linear_interpolation ⟨3000,0⟩ [⟨4000,1000⟩] 3500 (by norm_num)
    (by norm_num [List.chain'_cons]) ?_ ?_, ?_, ?_⟩
  · rw [Curve.new_eq_of_le _ (by norm_num)]
    norm_num [minV, List.foldl]
  · rw [Curve.new_eq_of_le _ (by norm_num)]
    norm_num [maxV, List.foldl]
  · rw [Curve.new_eq_of_le _ (by norm_num)]
    norm_num [Curve.voltage_to_soc, minV, maxV, List.foldl, interpSearch, findFirstSoc,
      headSocD, lerp, CurvePoint.soc]
  · rw [Curve.new_eq_of_le _ (by norm_num)]
    norm_num [Curve.voltage_to_soc, minV, maxV, List.foldl, interpSearch, findFirstSoc,
      headSocD, lerp, CurvePoint.soc]

/-- Claim C6 (amended): whenever the scan's *first* bracketing segment
has zero voltage span, `voltage_to_soc` returns `Err(NumericalError)`
instead of dividing by zero. -/
theorem c6_zero_span_amended (p : CurvePoint) (rest : List CurvePoint) (v : ℤ)
    (h32 : (p :: rest).length ≤ 32)
    (hminv : ((Curve.new (p :: rest)).min_voltage_mv : ℤ) < v)
    (hmaxv : v < ((Curve.new (p :: rest)).max_voltage_mv : ℤ))
    (hfbz : firstBracketZero p rest v = true) :
    (Curve.new (p :: rest)).voltage_to_soc v = .error .NumericalError := by
  cases rest with
  | nil => simp [firstBracketZero] at hfbz
  | cons c t =>
    have hnew : Curve.new (p :: c :: t) = ⟨p :: c :: t, minV (p :: c :: t), maxV (p :: c :: t)⟩ :=
      Curve.new_eq_of_le _ h32
    rw [hnew] at hminv hmaxv ⊢
    simp only at hminv hmaxv ⊢
    unfold Curve.voltage_to_soc
    simp only
    rw [if_neg (by simp), if_neg (by omega), if_neg (by omega)]
    exact firstBracketZero_error p (c :: t) v hfbz

/-- Witness for C6 (amended): an order-violating curve whose first
bracketing segment at `3.5V` is the duplicate pair, yielding
`NumericalError`. -/
theorem c6_zero_span_amended_witness :
    (Curve.new [⟨3500,0⟩, ⟨3500,1000⟩, ⟨3000,0⟩, ⟨4000,1000⟩]).voltage_to_soc 3500
      = .error .NumericalError := by
  refine c6_zero_span_amended ⟨3500,0⟩ [⟨3500,1000⟩, ⟨3000,0⟩, ⟨4000,1000⟩] 3500
    (by norm_num) ?_ ?_ (by norm_num [firstBracketZero])
  · rw [Curve.new_eq_of_le _ (by norm_num)]
    norm_num [minV, List.foldl]
  · rw [Curve.new_eq_of_le _ (by norm_num)]
    norm_num [maxV, List.foldl]

/-- Claim C5 (amended): for a stored curve with at least two points in
*strictly* increasing voltage order, interpolating at any stored point's
millivolt voltage returns exactly that point's SOC (so certainly within
the claimed `±0.1` tolerance). -/
theorem c5_exact_at_samples_amended (p : CurvePoint) (rest : List CurvePoint)
    (h32 : (p :: rest).length ≤ 32) (h2 : 2 ≤ (p :: rest).length)
    (hstrict : List.Chain' (fun a b => a.voltage_mv < b.voltage_mv) (p :: rest))
    (i : ℕ) (hi : i < (p :: rest).length) :
    (Curve.new (p :: rest)).voltage_to_soc (((p :: rest)[i]).voltage_mv : ℤ)
      = .ok ((p :: rest)[i]).soc := by
  have hord : List.Chain' (fun a b => a.voltage_mv ≤ b.voltage_mv) (p :: rest) :=
    hstrict.imp (fun a b hab => le_of_lt hab)
  have hpair : List.Pairwise (fun a b => a.voltage_mv < b.voltage_mv) (p :: rest) := by
    haveI : IsTrans CurvePoint (fun a b => a.voltage_mv < b.voltage_mv) :=
      ⟨fun a b c h1 h2 => lt_trans h1 h2⟩
    exact List.chain'_iff_pairwise.mp hstrict
  have hmono := List.pairwise_iff_getElem.mp hpair
  have hnew : Curve.new (p :: rest) = ⟨p :: rest, minV (p :: rest), maxV (p :: rest)⟩ :=
    Curve.new_eq_of_le _ h32
  have hminL : minV (p :: rest) = p.voltage_mv := minV_sorted hord
  have hmaxL : maxV (p :: rest) = (((p :: rest)).getLast (by simp)).voltage_mv :=
    maxV_sorted hord
  have hlast : ((p :: rest)).getLast (by simp) = (p :: rest)[(p :: rest).length - 1] := by
    rw [List.getLast_eq_getElem]
  have hge : ¬ (p :: rest).length < 2 := by omega
  rw [hnew]
  unfold Curve.voltage_to_soc
  simp only
  rw [if_neg hge]
  by_cases hilast : i = (p :: rest).length - 1
  · subst hilast
    have hv : ((maxV (p :: rest) : ℤ)) ≤
        (((p :: rest)[(p :: rest).length - 1]).voltage_mv : ℤ) := by
      simp [hmaxL, hlast]
    rw [if_pos hv, hmaxL, findFirstSoc_last_strict hstrict, hlast]
  · have hlt : i < (p :: rest).length - 1 := by omega
    have hvmax : (((p :: rest)[i]).voltage_mv : ℤ) < ((maxV (p :: rest)) : ℤ) := by
      rw [hmaxL, hlast]
      exact_mod_cast hmono i ((p :: rest).length - 1) hi (by omega) hlt
    rw [if_neg (not_le.mpr hvmax)]
    by_cases hi0 : i = 0
    · subst hi0
      have hv : (((p :: rest)[0]).voltage_mv : ℤ) ≤ ((minV (p :: rest)) : ℤ) := by
        rw [hminL]
        simp
      rw [if_pos hv, hminL, findFirstSoc_head rfl]
      simp
    · have h0 : 0 < i := Nat.pos_of_ne_zero hi0
      have h0len : 0 < (p :: rest).length := by omega
      have hp0 : (p :: rest)[0] = p := rfl
      have hvmin : ((minV (p :: rest)) : ℤ) < (((p :: rest)[i]).voltage_mv : ℤ) := by
        rw [hminL]
        have hm := hmono 0 i (by omega) hi h0
        rw [hp0] at hm
        exact_mod_cast hm
      rw [if_neg (not_le.mpr hvmin)]
      have hqmem : (p :: rest)[i] ∈ rest := by
        rcases List.mem_cons.mp (List.getElem_mem hi) with heq | hmem
        · exfalso
          rw [hminL] at hvmin
          rw [heq] at hvmin
          omega
        · exact hmem
      exact interpSearch_exact _ p rest ((p :: rest)[i]) hstrict
        (by rw [hminL] at hvmin; exact_mod_cast hvmin) hqmem rfl

/-- Witness for C5 (amended): the middle sample of the strictly
increasing curve `(3.0V, 0%), (3.5V, 50%), (4.0V, 100%)` is returned
exactly. -/
theorem c5_exact_at_samples_amended_witness :
    (Curve.new [⟨3000,0⟩, ⟨3500,500⟩, ⟨4000,1000⟩]).voltage_to_soc
        ((([⟨3000,0⟩, ⟨3500,500⟩, ⟨4000,1000⟩] : List CurvePoint)[1]).voltage_mv : ℤ)
      = .ok (([⟨3000,0⟩, ⟨3500,500⟩, ⟨4000,1000⟩] : List CurvePoint)[1]).soc :=
  c5_exact_at_samples_amended ⟨3000,0⟩ [⟨3500,500⟩, ⟨4000,1000⟩] (by norm_num) (by norm_num)
    (by norm_num [List.chain'_cons]) 1 (by norm_num)

/-- Claim C7 (amended): the compensation wrappers are fail-soft exactly
as claimed for non-finite inputs — any non-finite argument short-circuits
to the original `soc`, a non-finite `soc` propagating unchanged — and
they are total whenever every argument is finite and fits `I16F16`
(`Fixed::from_num` succeeds). -/
theorem c7_fail_soft_amended :
    (∀ soc temperature nominal_temp coefficient : F32,
      (soc.isFinite && temperature.isFinite && nominal_temp.isFinite && coefficient.isFinite)
          = false →
      compensate_temperature soc temperature nominal_temp coefficient = some soc) ∧
    (∀ (qs qt qn qc : ℚ) (bs bt bn bc : ℤ),
      fromNum (.finite qs) = some bs → fromNum (.finite qt) = some bt →
      fromNum (.finite qn) = some bn → fromNum (.finite qc) = some bc →
      ∃ r : ℚ, compensate_temperature (.finite qs) (.finite qt) (.finite qn) (.finite qc)
        = some (.finite r)) ∧
    (∀ soc age_years aging_factor : F32,
      (soc.isFinite && age_years.isFinite && aging_factor.isFinite) = false →
      compensate_aging soc age_years aging_factor = some soc) ∧
    (∀ (qs qa qf : ℚ) (bs ba bf : ℤ),
      fromNum (.finite qs) = some bs → fromNum (.finite qa) = some ba →
      fromNum (.finite qf) = some bf →
      ∃ y : F32, compensate_aging (.finite qs) (.finite qa) (.finite qf) = some y) := by
  refine ⟨?_, ?_, ?_, ?_⟩
  · intro soc temperature nominal_temp coefficient h
    simp [compensate_temperature, h]
  · intro qs qt qn qc bs bt bn bc hs ht hn hc
    exact ⟨((Compensation.compensate_temperature_fixed bs bt bn bc : ℤ) : ℚ) / 65536,
      by simp [compensate_temperature, F32.isFinite, hs, ht, hn, hc, toF32]⟩
  · intro soc age_years aging_factor h
    simp [compensate_aging, h]
  · intro qs qa qf bs ba bf hs ha hf
    by_cases hqa : qa < 0
    · exact ⟨.finite qs, by simp [compensate_aging, F32.isFinite, F32.ltZero, hqa]⟩
    · by_cases hqf : qf < 0
      · exact ⟨.finite qs, by simp [compensate_aging, F32.isFinite, F32.ltZero, hqa, hqf]⟩
      · exact ⟨toF32 (Compensation.compensate_aging_fixed bs ba bf),
          by simp [compensate_aging, F32.isFinite, F32.ltZero, hqa, hqf, hs, ha, hf]⟩

/-- Witness for C7 (amended): a NaN temperature degrades to "no
correction", and aging compensation succeeds on representable inputs. -/
theorem c7_fail_soft_amended_witness :
    compensate_temperature (.finite 50) .nan (.finite 25) (.finite 0) = some (.finite 50) ∧
    (∃ y : F32, compensate_aging (.finite 50) (.finite 1) (.finite (1/4)) = some y) := by
  constructor
  · exact c7_fail_soft_amended.1 (.finite 50) .nan (.finite 25) (.finite 0) rfl
  · refine c7_fail_soft_amended.2.2.2 50 1 (1/4) 3276800 65536 16384 ?_ ?_ ?_
    · have e : rnte ((50 : ℚ) * 65536) = 3276800 := rnte_eq_intCast _ (by norm_num)
      simp [fromNum, e]
    · have e : rnte ((65536 : ℚ)) = 65536 := rnte_eq_intCast _ (by norm_num)
      norm_num [fromNum, e]
    · have e : rnte ((16384 : ℚ)) = 16384 := rnte_eq_intCast _ (by norm_num)
      norm_num [fromNum, e]

/-- Claim C8 (amended): the zero-delta identity is exact and
unconditional in both fixed-point twins, and holds in the floating-point
wrapper whenever `soc` is exactly representable in `I16F16` and the
temperature and coefficient are finite in-range values. -/
theorem c8_identity_amended :
    (∀ s t c : ℤ, -2147483648 ≤ s → s ≤ 2147483647 →
      Compensation.compensate_temperature_fixed s t t c = s) ∧
    (∀ s t c : ℤ, -2147483648 ≤ s → s ≤ 2147483647 →
      FixedPointRs.compensate_temperature_fixed s t t c = s) ∧
    (∀ (b : ℤ) (qt qc : ℚ) (bt bc : ℤ), -2147483648 ≤ b → b ≤ 2147483647 →
      fromNum (.finite qt) = some bt → fromNum (.finite qc) = some bc →
      compensate_temperature (.finite ((b : ℚ) / 65536)) (.finite qt) (.finite qt) (.finite qc)
        = some (.finite ((b : ℚ) / 65536))) := by
  have hd : ∀ t : ℤ, fsub t t = 0 := fun t => by simp [fsub, wrap32_zero]
  have hdv : fdivF 0 131072 = 0 := by
    simp [fdivF, wrap32_zero]
  have hone : fadd 65536 0 = 65536 := by decide
  have hfix1 : ∀ s t c : ℤ, -2147483648 ≤ s → s ≤ 2147483647 →
      Compensation.compensate_temperature_fixed s t t c = s := by
    intro s t c h1 h2
    simp only [Compensation.compensate_temperature_fixed, hd, fmul_zero_left, hdv]
    norm_num [hone]
    exact fmul_one_right h1 (by omega)
  refine ⟨hfix1, ?_, ?_⟩
  · intro s t c h1 h2
    have hm0 : fmul 0 32768 = 0 := fmul_zero_left 32768
    simp only [FixedPointRs.compensate_temperature_fixed, hd, fmul_zero_left, hm0]
    norm_num [clampI, hone]
    exact fmul_one_right h1 (by omega)
  · intro b qt qc bt bc hb1 hb2 ht hc
    have harg : ((b : ℚ) / 65536) * 65536 = ((b : ℤ) : ℚ) := by
      field_simp
    have hsoc : fromNum (.finite ((b : ℚ) / 65536)) = some b := by
      simp [fromNum, harg, rnte_intCast, hb1, hb2]
    simp [compensate_temperature, F32.isFinite, hsoc, ht, hc, toF32,
      hfix1 b bt bc hb1 hb2]

/-- Witness for C8 (amended): both fixed twins at `soc = 1.0`, `t = 0`,
`c = 5`, and the float wrapper at the representable `soc = 50.0`,
`t = 25.0`, `c = 0.0`. -/
theorem c8_identity_amended_witness :
    Compensation.compensate_temperature_fixed 65536 0 0 5 = 65536 ∧
    FixedPointRs.compensate_temperature_fixed 65536 0 0 5 = 65536 ∧
    compensate_temperature (.finite ((3276800 : ℤ) / 65536 : ℚ)) (.finite 25) (.finite 25)
        (.finite 0) = some (.finite ((3276800 : ℤ) / 65536 : ℚ)) := by
  refine ⟨c8_identity_amended.1 65536 0 5 (by norm_num) (by norm_num),
    c8_identity_amended.2.1 65536 0 5 (by norm_num) (by norm_num),
    c8_identity_amended.2.2 3276800 25 0 1638400 0 (by norm_num) (by norm_num) ?_ ?_⟩
  · have e : rnte ((25 : ℚ) * 65536) = 1638400 := rnte_eq_intCast _ (by norm_num)
    simp [fromNum, e]
  · have e : rnte ((0 : ℚ)) = 0 := rnte_eq_intCast _ (by norm_num)
    norm_num [fromNum, e]

/-- Claim C10, counterexample to its unqualified float half: at `3.5V`
(3500 mV) the lookup on the curve `(3.0V, 0%)-(4.0V, 100%)` succeeds with
base SOC `50`, and the temperature `40000.0` is finite, yet
`estimate_soc_with_temp` panics inside `Fixed::from_num(temperature)`
(modelled as `none`) instead of returning the compensated SOC clamped to
`[0, 100]` — the method has no finiteness or range guard. -/
theorem c10_float_overflow_cex :
    (Curve.new [⟨3000,0⟩, ⟨4000,1000⟩]).voltage_to_soc 3500 = .ok 50 ∧
    (F32.finite 40000).isFinite = true ∧
    SocEstimator.estimate_soc_with_temp
        ⟨Curve.new [⟨3000,0⟩, ⟨4000,1000⟩], EstimatorConfig.default⟩ 3500 (.finite 40000)
      = none := by
  have hlook : (Curve.new [⟨3000,0⟩, ⟨4000,1000⟩]).voltage_to_soc 3500 = .ok 50 := by
    rw [Curve.new_eq_of_le _ (by norm_num)]
    norm_num [Curve.voltage_to_soc, minV, maxV, List.foldl, interpSearch, findFirstSoc,
      headSocD, lerp, CurvePoint.soc]
  have h50 : fromNum (.finite 50) = some 3276800 := by
    have e : rnte ((50 : ℚ) * 65536) = 3276800 := rnte_eq_intCast _ (by norm_num)
    simp [fromNum, e]
  have hbig : fromNum (.finite 40000) = none := by
    have e : rnte ((2621440000 : ℚ)) = 2621440000 := rnte_eq_intCast _ (by norm_num)
    norm_num [fromNum, e]
  refine ⟨hlook, rfl, ?_⟩
  unfold SocEstimator.estimate_soc_with_temp
  simp [hlook, h50, hbig]

/-- Claim C10 (amended): for every voltage whose curve lookup succeeds,
both `estimate_soc_with_temp_fixed` (with the spec-modelled lookup) and
`estimate_soc_with_temp` apply the *default* temperature compensation
(nominal `25.0` = bits `1638400`, coefficient `from_bits(328)` ≈ `0.005`)
unconditionally — the estimator's configuration, including its enable
flags and configured parameters, is never consulted — and return the
compensated SOC clamped to `[0, 100]`; the float variant additionally
requires the `I16F16` conversions of the base SOC and the temperature to
succeed (otherwise `Fixed::from_num` panics, see the counterexample). -/
theorem c10_default_temp_compensation_unconditional :
    (∀ (curve : Curve) (cfg cfg2 : EstimatorConfig) (v t b : ℤ),
      curve.voltage_to_soc_fixed v = .ok b →
      SocEstimator.estimate_soc_with_temp_fixed ⟨curve, cfg⟩ v t
        = .ok (clampI (Compensation.compensate_temperature_fixed b t 1638400 328) 0 6553600) ∧
      SocEstimator.estimate_soc_with_temp_fixed ⟨curve, cfg⟩ v t
        = SocEstimator.estimate_soc_with_temp_fixed ⟨curve, cfg2⟩ v t) ∧
    (∀ (curve : Curve) (cfg cfg2 : EstimatorConfig) (vmv : ℤ) (tq qb : ℚ) (bs bt : ℤ),
      curve.voltage_to_soc vmv = .ok qb →
      fromNum (.finite qb) = some bs → fromNum (.finite tq) = some bt →
      SocEstimator.estimate_soc_with_temp ⟨curve, cfg⟩ vmv (.finite tq)
        = some (.ok (toF32
            (clampI (Compensation.compensate_temperature_fixed bs bt 1638400 328) 0 6553600))) ∧
      SocEstimator.estimate_soc_with_temp ⟨curve, cfg⟩ vmv (.finite tq)
        = SocEstimator.estimate_soc_with_temp ⟨curve, cfg2⟩ vmv (.finite tq)) := by
  constructor
  · intro curve cfg cfg2 v t b h
    unfold SocEstimator.estimate_soc_with_temp_fixed
    simp [h, Compensation.default_temperature_compensation_fixed]
  · intro curve cfg cfg2 vmv tq qb bs bt hlook hs ht
    unfold SocEstimator.estimate_soc_with_temp
    simp [hlook, hs, ht, Compensation.default_temperature_compensation_fixed]

/-- Witness for C10 (amended): both variants on the curve
`(3.0V, 0%)-(4.0V, 100%)` at `3.5V` (fixed-point bits `229376`, millivolt
integer `3500`) and nominal temperature `25.0`: the default-config
estimator and an estimator with compensation enabled and different
parameters (flags `3`, nominal `30.0`, coefficient `656`) return the same
clamped default-compensated value. -/
theorem c10_default_temp_compensation_unconditional_witness :
    (SocEstimator.estimate_soc_with_temp_fixed
        ⟨Curve.new [⟨3000,0⟩, ⟨4000,1000⟩], EstimatorConfig.default⟩ 229376 1638400
      = .ok (clampI (Compensation.compensate_temperature_fixed 3276800 1638400 1638400 328)
          0 6553600)) ∧
    (SocEstimator.estimate_soc_with_temp_fixed
        ⟨Curve.new [⟨3000,0⟩, ⟨4000,1000⟩], EstimatorConfig.default⟩ 229376 1638400
      = SocEstimator.estimate_soc_with_temp_fixed
        ⟨Curve.new [⟨3000,0⟩, ⟨4000,1000⟩], ⟨1966080, 656, 131072, 1311, 3⟩⟩ 229376 1638400) ∧
    (SocEstimator.estimate_soc_with_temp
        ⟨Curve.new [⟨3000,0⟩, ⟨4000,1000⟩], EstimatorConfig.default⟩ 3500 (.finite 25)
      = some (.ok (toF32
          (clampI (Compensation.compensate_temperature_fixed 3276800 1638400 1638400 328)
            0 6553600)))) ∧
    SocEstimator.estimate_soc_with_temp
        ⟨Curve.new [⟨3000,0⟩, ⟨4000,1000⟩], EstimatorConfig.default⟩ 3500 (.finite 25)
      = SocEstimator.estimate_soc_with_temp
        ⟨Curve.new [⟨3000,0⟩, ⟨4000,1000⟩], ⟨1966080, 656, 131072, 1311, 3⟩⟩ 3500 (.finite 25) := by
  have hlookf : (Curve.new [⟨3000,0⟩, ⟨4000,1000⟩]).voltage_to_soc_fixed 229376
      = .ok 3276800 := by
    unfold Curve.voltage_to_soc_fixed
    have hdiv : Int.tdiv 229376000 65536 = 3500 := by decide
    have e : rnte ((3276800 : ℚ)) = 3276800 := rnte_eq_intCast _ (by norm_num)
    rw [Curve.new_eq_of_le _ (by norm_num)]
    norm_num [Curve.voltage_to_soc, minV, maxV, List.foldl, interpSearch, findFirstSoc,
      headSocD, lerp, CurvePoint.soc, hdiv, e]
  have hlook : (Curve.new [⟨3000,0⟩, ⟨4000,1000⟩]).voltage_to_soc 3500 = .ok 50 := by
    rw [Curve.new_eq_of_le _ (by norm_num)]
    norm_num [Curve.voltage_to_soc, minV, maxV, List.foldl, interpSearch, findFirstSoc,
      headSocD, lerp, CurvePoint.soc]
  have h50 : fromNum (.finite 50) = some 3276800 := by
    have e : rnte ((50 : ℚ) * 65536) = 3276800 := rnte_eq_intCast _ (by norm_num)
    simp [fromNum, e]
  have h25 : fromNum (.finite 25) = some 1638400 := by
    have e : rnte ((25 : ℚ) * 65536) = 1638400 := rnte_eq_intCast _ (by norm_num)
    simp [fromNum, e]
  obtain ⟨ha, hb⟩ := c10_default_temp_compensation_unconditional.1
    (Curve.new [⟨3000,0⟩, ⟨4000,1000⟩]) EstimatorConfig.default ⟨1966080, 656, 131072, 1311, 3⟩
    229376 1638400 3276800 hlookf
  obtain ⟨hc, hd⟩ := c10_default_temp_compensation_unconditional.2
    (Curve.new [⟨3000,0⟩, ⟨4000,1000⟩]) EstimatorConfig.default ⟨1966080, 656, 131072, 1311, 3⟩
    3500 25 50 3276800 1638400 hlook h50 h25
  exact ⟨ha, hb, hc, hd⟩

end BatteryEstimator
